import Mathlib

/-!
Verification of the scan-fusion map builder (files `map.py` and `data.py`).

Pixel samples are modelled as exact rationals together with an explicit NaN
sentinel (`RVal.nan`); all numpy arithmetic on samples is NaN-propagating.
Rotations are modelled as 3x3 rational matrices (the scipy `Rotation` object
exposed through `apply`, `inv` and composition); machine floating point
rounding is out of scope, rational arithmetic is exact.
-/

/-- A pixel sample: either the NaN sentinel (unknown) or a rational value. -/
inductive RVal where
  | nan : RVal
  | val (q : ℚ) : RVal
  deriving DecidableEq, Repr

namespace RVal

/-- NaN-propagating addition, as numpy elementwise `+` on float arrays. -/
def add : RVal → RVal → RVal
  | val a, val b => val (a + b)
  | _, _ => nan

/-- NaN-propagating multiplication. -/
def mul : RVal → RVal → RVal
  | val a, val b => val (a * b)
  | _, _ => nan

/-- NaN-propagating division (exact rational division; the float infinities
produced by dividing by zero are outside the model). -/
def div : RVal → RVal → RVal
  | val a, val b => val (a / b)
  | _, _ => nan

/-- The `np.isnan` test. -/
def isNan : RVal → Bool
  | nan => true
  | val _ => false

end RVal

instance : Add RVal := ⟨RVal.add⟩
instance : Mul RVal := ⟨RVal.mul⟩
instance : Div RVal := ⟨RVal.div⟩

@[simp] lemma RVal.val_add (a b : ℚ) : RVal.val a + RVal.val b = RVal.val (a + b) := rfl

@[simp] lemma RVal.nan_add (r : RVal) : RVal.nan + r = RVal.nan := rfl

@[simp] lemma RVal.add_nan (r : RVal) : r + RVal.nan = RVal.nan := by cases r <;> rfl

@[simp] lemma RVal.val_mul (a b : ℚ) : RVal.val a * RVal.val b = RVal.val (a * b) := rfl

@[simp] lemma RVal.nan_mul (r : RVal) : RVal.nan * r = RVal.nan := rfl

@[simp] lemma RVal.mul_nan (r : RVal) : r * RVal.nan = RVal.nan := by cases r <;> rfl

@[simp] lemma RVal.val_div (a b : ℚ) : RVal.val a / RVal.val b = RVal.val (a / b) := rfl

@[simp] lemma RVal.nan_div (r : RVal) : RVal.nan / r = RVal.nan := rfl

@[simp] lemma RVal.div_nan (r : RVal) : r / RVal.nan = RVal.nan := by cases r <;> rfl

@[simp] lemma RVal.val_ne_nan (a : ℚ) : RVal.val a ≠ RVal.nan := by
  intro h; cases h

/-- Round to nearest integer with ties to even: the rounding of Python's
builtin `round` and of `np.round`. -/
def pyRound (q : ℚ) : ℤ :=
  if q - ⌊q⌋ = 1 / 2 then (if ⌊q⌋ % 2 = 0 then ⌊q⌋ else ⌊q⌋ + 1) else round q

@[simp] lemma pyRound_intCast (n : ℤ) : pyRound (n : ℚ) = n := by
  simp [pyRound]

/-- Rounding lifted to pixel samples.  (Python's `round` actually raises on a
NaN argument; that case is unreachable in `merge_img` whenever value and
variance grids are NaN-synchronised, and is mapped to NaN here.) -/
def rvalRound : RVal → RVal
  | RVal.nan => RVal.nan
  | RVal.val q => RVal.val (pyRound q)

@[simp] lemma rvalRound_val (q : ℚ) : rvalRound (RVal.val q) = RVal.val (pyRound q) := rfl

/-- An image (or variance grid): a grid of samples indexed by (row, column).
numpy arrays carry their shape separately, so shapes are passed explicitly. -/
abbrev Img := ℕ → ℕ → RVal

/-- Per-pixel fusion rule of `merge_img` (map.py lines 15-23): the NaN tests
are on the value components only; both components of the chosen operand are
copied when one value is NaN, and otherwise the covariance-weighted mean is
taken and rounded. -/
def mergePixel (v1 p1 v2 p2 : RVal) : RVal × RVal :=
  match v1, v2 with
  | RVal.nan, _ => (v2, p2)
  | RVal.val _, RVal.nan => (v1, p1)
  | RVal.val _, RVal.val _ =>
      (rvalRound ((v1 * p2 + v2 * p1) / (p1 + p2)), p1 * p2 / (p1 + p2))

/-- Bound test of the two loop headers of `merge_img` (map.py lines 13-14):
row `i` runs over `[max 0 Ps.2, min Pe.2 rows)` and column `j` over
`[max 0 Ps.1, min Pe.1 cols)`. -/
def inMergeRect (Ps Pe : ℤ × ℤ) (rows cols : ℕ) (i j : ℕ) : Prop :=
  max 0 Ps.2 ≤ (i : ℤ) ∧ (i : ℤ) < min Pe.2 (rows : ℤ) ∧
    max 0 Ps.1 ≤ (j : ℤ) ∧ (j : ℤ) < min Pe.1 (cols : ℤ)

instance (Ps Pe : ℤ × ℤ) (rows cols i j : ℕ) :
    Decidable (inMergeRect Ps Pe rows cols i j) := by
  unfold inMergeRect
  exact inferInstance

/-- `merge_img` (map.py lines 10-24): starts from deep copies of `img1` and
`P1` and rewrites every pixel of the clipped rectangle with `mergePixel`. -/
def mergeImg (rows cols : ℕ) (img1 img2 P1 P2 : Img) (Ps Pe : ℤ × ℤ) : Img × Img :=
  (fun i j =>
      if inMergeRect Ps Pe rows cols i j then
        (mergePixel (img1 i j) (P1 i j) (img2 i j) (P2 i j)).1
      else img1 i j,
   fun i j =>
      if inMergeRect Ps Pe rows cols i j then
        (mergePixel (img1 i j) (P1 i j) (img2 i j) (P2 i j)).2
      else P1 i j)

/-- C1: inside the merged rectangle, a pixel where both operands are defined
gets value `round((v1*p2+v2*p1)/(p1+p2))` and variance `p1*p2/(p1+p2)`, and a
pixel where exactly one operand's value is NaN gets the other operand's value
and variance unchanged. -/
theorem merge_pixel_rule (rows cols : ℕ) (img1 img2 P1 P2 : Img) (Ps Pe : ℤ × ℤ)
    (i j : ℕ) (hin : inMergeRect Ps Pe rows cols i j) :
    (∀ a p b q, img1 i j = RVal.val a → P1 i j = RVal.val p →
        img2 i j = RVal.val b → P2 i j = RVal.val q →
        (mergeImg rows cols img1 img2 P1 P2 Ps Pe).1 i j
            = RVal.val (pyRound ((a * q + b * p) / (p + q))) ∧
          (mergeImg rows cols img1 img2 P1 P2 Ps Pe).2 i j
            = RVal.val (p * q / (p + q))) ∧
    (img1 i j = RVal.nan →
        (mergeImg rows cols img1 img2 P1 P2 Ps Pe).1 i j = img2 i j ∧
          (mergeImg rows cols img1 img2 P1 P2 Ps Pe).2 i j = P2 i j) ∧
    (img1 i j ≠ RVal.nan → img2 i j = RVal.nan →
        (mergeImg rows cols img1 img2 P1 P2 Ps Pe).1 i j = img1 i j ∧
          (mergeImg rows cols img1 img2 P1 P2 Ps Pe).2 i j = P1 i j) := by
  refine ⟨?_, ?_, ?_⟩
  · intro a p b q hv1 hp1 hv2 hp2
    simp only [mergeImg, if_pos hin, hv1, hp1, hv2, hp2, mergePixel]
    constructor
    · simp [mul_comm]
    · simp [mul_comm]
  · intro hv1
    simp [mergeImg, if_pos hin, hv1, mergePixel]
  · intro hv1 hv2
    cases h1 : img1 i j with
    | nan => exact absurd h1 hv1
    | val a => simp [mergeImg, if_pos hin, h1, hv2, mergePixel]

/-- Witness for `merge_pixel_rule` at a concrete input: fusing value 0 with
value 100, both at variance 10, inside the rectangle, yields value 50 and
variance 5. -/
theorem merge_pixel_rule_witness :
    (mergeImg 1 1 (fun _ _ => RVal.val 0) (fun _ _ => RVal.val 100)
        (fun _ _ => RVal.val 10) (fun _ _ => RVal.val 10) (0, 0) (1, 1)).1 0 0
        = RVal.val 50 ∧
      (mergeImg 1 1 (fun _ _ => RVal.val 0) (fun _ _ => RVal.val 100)
        (fun _ _ => RVal.val 10) (fun _ _ => RVal.val 10) (0, 0) (1, 1)).2 0 0
        = RVal.val 5 := by
  have h := merge_pixel_rule 1 1 (fun _ _ => RVal.val 0) (fun _ _ => RVal.val 100)
    (fun _ _ => RVal.val 10) (fun _ _ => RVal.val 10) (0, 0) (1, 1) 0 0 (by decide)
  have h2 := h.1 0 10 100 10 rfl rfl rfl rfl
  have harg : ((0 : ℚ) * 10 + 100 * 10) / (10 + 10) = ((50 : ℤ) : ℚ) := by norm_num
  refine ⟨?_, ?_⟩
  · rw [h2.1, harg, pyRound_intCast]; norm_num
  · rw [h2.2]; norm_num

/-- C8 counterexample: the claimed identity swaps the two values while keeping
the variances in place; at `(v1,p1) = (0,1)`, `(v2,p2) = (10,2)` the left side
fuses to value 3 (from 10/3) and the right side to value 7 (from 20/3), which
differ by far more than one rounding step, although the variance components
agree. -/
theorem fuse_swap_cex :
    (mergePixel (RVal.val 0) (RVal.val 1) (RVal.val 10) (RVal.val 2)).1 = RVal.val 3 ∧
      (mergePixel (RVal.val 10) (RVal.val 1) (RVal.val 0) (RVal.val 2)).1 = RVal.val 7 ∧
      RVal.val (3 : ℚ) ≠ RVal.val 7 ∧
      ((0 : ℚ) * 2 + 10 * 1) / (1 + 2) = (10 : ℚ) / 3 ∧
      ((10 : ℚ) * 2 + 0 * 1) / (1 + 2) = (20 : ℚ) / 3 ∧
      (20 : ℚ) / 3 - 10 / 3 > 1 := by
  have h1 : ((0 : ℚ) * 2 + 10 * 1) / (1 + 2) = (10 : ℚ) / 3 := by norm_num
  have h2 : ((10 : ℚ) * 2 + 0 * 1) / (1 + 2) = (20 : ℚ) / 3 := by norm_num
  have hf1 : pyRound ((10 : ℚ) / 3) = 3 := by
    have hfl : ⌊(10 : ℚ) / 3⌋ = 3 := by norm_num [Int.floor_eq_iff]
    norm_num [pyRound, hfl, round_eq]
  have hf2 : pyRound ((20 : ℚ) / 3) = 7 := by
    have hfl : ⌊(20 : ℚ) / 3⌋ = 6 := by norm_num [Int.floor_eq_iff]
    norm_num [pyRound, hfl, round_eq]
  refine ⟨?_, ?_, by simp, h1, h2, by norm_num⟩
  · simp only [mergePixel, RVal.val_mul, RVal.val_add, RVal.val_div, rvalRound_val, h1, hf1]
    norm_num
  · simp only [mergePixel, RVal.val_mul, RVal.val_add, RVal.val_div, rvalRound_val, h2, hf2]
    norm_num

/-- C8 amended: fusion is commutative under swapping the whole operands,
`fuse((v1,p1),(v2,p2)) = fuse((v2,p2),(v1,p1))`, exactly in both components,
for defined inputs with positive variances. -/
theorem fuse_comm_amended (v1 p1 v2 p2 : ℚ) (h1 : (0 : ℚ) < p1) (h2 : (0 : ℚ) < p2) :
    mergePixel (RVal.val v1) (RVal.val p1) (RVal.val v2) (RVal.val p2)
      = mergePixel (RVal.val v2) (RVal.val p2) (RVal.val v1) (RVal.val p1) := by
  simp only [mergePixel, RVal.val_mul, RVal.val_add, RVal.val_div, rvalRound_val,
    Prod.mk.injEq]
  constructor
  · have harg : (v1 * p2 + v2 * p1) / (p1 + p2) = (v2 * p1 + v1 * p2) / (p2 + p1) := by
      ring_nf
    rw [harg]
  · rw [mul_comm p1 p2, add_comm p1 p2]

/-- Witness for `fuse_comm_amended` at `(1,1)` and `(2,3)`. -/
theorem fuse_comm_amended_witness :
    mergePixel (RVal.val 1) (RVal.val 1) (RVal.val 2) (RVal.val 3)
      = mergePixel (RVal.val 2) (RVal.val 3) (RVal.val 1) (RVal.val 1) :=
  fuse_comm_amended 1 1 2 3 (by norm_num) (by norm_num)

/-- Value grid of chunk (0,0) created by `Map.__init__` (map.py lines 47-48):
a NaN-filled chunk with the scan image copied into the top-left rectangle. -/
def iniMapTile (img : Img) (rows cols : ℕ) : Img :=
  fun i j => if i < rows ∧ j < cols then img i j else RVal.nan

/-- Covariance grid of chunk (0,0) created by `Map.__init__` (map.py lines
49-50): a NaN-filled chunk with the constant `img_cov` written over the whole
scan rectangle, regardless of NaN pixels in the scan image. -/
def iniCovTile (imgCov : ℚ) (rows cols : ℕ) : Img :=
  fun i j => if i < rows ∧ j < cols then RVal.val imgCov else RVal.nan

/-- C2 counterexample: constructing a map from a 1x1 initial scan whose single
pixel is NaN yields chunk (0,0) with value NaN but variance 10 at (0,0), so
variance-NaN-iff-value-NaN fails exactly where the claim asserts it holds. -/
theorem init_nan_sync_cex :
    ¬(iniMapTile (fun _ _ => RVal.nan) 1 1 0 0 = RVal.nan ↔
        iniCovTile 10 1 1 0 0 = RVal.nan) := by
  decide

/-- C2 amended: the variance-NaN-iff-value-NaN pairing holds for the tiles
written at map creation only when the initial scan contains no NaN pixel
inside its rectangle (a NaN scan pixel gets value NaN but variance `img_cov`),
and `merge_img` preserves the pairing pixelwise whenever both operand pairs
satisfy it. -/
theorem nan_sync_amended :
    (∀ (img : Img) (rows cols : ℕ) (imgCov : ℚ),
        (∀ i j, i < rows → j < cols → img i j ≠ RVal.nan) →
        ∀ i j, (iniMapTile img rows cols i j = RVal.nan ↔
          iniCovTile imgCov rows cols i j = RVal.nan)) ∧
    (∀ v1 p1 v2 p2 : RVal, (v1 = RVal.nan ↔ p1 = RVal.nan) →
        (v2 = RVal.nan ↔ p2 = RVal.nan) →
        ((mergePixel v1 p1 v2 p2).1 = RVal.nan ↔
          (mergePixel v1 p1 v2 p2).2 = RVal.nan)) := by
  constructor
  · intro img rows cols imgCov hdef i j
    by_cases hin : i < rows ∧ j < cols
    · simp [iniMapTile, iniCovTile, hin, hdef i j hin.1 hin.2]
    · simp [iniMapTile, iniCovTile, hin]
  · intro v1 p1 v2 p2 h1 h2
    cases v1 with
    | nan => simpa [mergePixel] using h2
    | val a =>
      cases v2 with
      | nan =>
        simp only [mergePixel]
        simpa using h1
      | val b =>
        have hp1 : p1 ≠ RVal.nan := by
          intro h; exact RVal.val_ne_nan a (h1.mpr h)
        have hp2 : p2 ≠ RVal.nan := by
          intro h; exact RVal.val_ne_nan b (h2.mpr h)
        cases p1 with
        | nan => exact absurd rfl hp1
        | val p =>
          cases p2 with
          | nan => exact absurd rfl hp2
          | val q => simp [mergePixel]

/-- Witness for `nan_sync_amended`: with a constant-5 1x1 scan the pairing
holds at pixel (0,0) of the initial chunk. -/
theorem nan_sync_amended_witness :
    iniMapTile (fun _ _ => RVal.val 5) 1 1 0 0 = RVal.nan ↔
      iniCovTile 10 1 1 0 0 = RVal.nan :=
  nan_sync_amended.1 (fun _ _ => RVal.val 5) 1 1 10
    (fun _ _ _ _ => RVal.val_ne_nan 5) 0 0

/-- Per-pixel mask post-processing of `predict_image` (data.py lines 132-136):
`diff = mask - 1`; entries different from `-1` are zeroed, entries equal to
`-1` become NaN, and `diff` is added to the warped image. -/
def predictPixel (m : ℚ) (v : RVal) : RVal :=
  (if m - 1 = -1 then RVal.nan else RVal.val 0) + v

/-- C4 counterexample: an edge pixel whose warped mask value is 1/2 (strictly
between 0 and 1, hence different from exactly 1) is not set to NaN by
`predict_image`; the warped value passes through unchanged. -/
theorem predict_mask_cex :
    (0 : ℚ) < 1 / 2 ∧ (1 / 2 : ℚ) < 1 ∧ (1 / 2 : ℚ) ≠ 1 ∧
      predictPixel (1 / 2) (RVal.val 5) = RVal.val 5 ∧
      predictPixel (1 / 2) (RVal.val 5) ≠ RVal.nan := by
  refine ⟨by norm_num, by norm_num, by norm_num, ?_, ?_⟩
  · norm_num [predictPixel]
  · norm_num [predictPixel]

/-- C4 amended: `predict_image` marks an output pixel unknown exactly when its
warped all-ones-mask value equals 0 (no source coverage at all under the
zero border fill) or the warped image value itself is NaN; mask values
strictly between 0 and 1 are kept. -/
theorem predict_mask_nan_iff : ∀ (m : ℚ) (v : RVal),
    predictPixel m v = RVal.nan ↔ (m = 0 ∨ v = RVal.nan) := by
  intro m v
  unfold predictPixel
  by_cases hm : m - 1 = -1
  · have hm0 : m = 0 := by linarith
    simp [hm, hm0]
  · have hm0 : m ≠ 0 := by
      intro h; exact hm (by rw [h]; norm_num)
    cases v with
    | nan => simp [hm]
    | val q => simp [hm, hm0]

/-- A 3-vector of exact rationals (a numpy 1x3 position array). -/
@[ext] structure Vec3 where
  x : ℚ
  y : ℚ
  z : ℚ
  deriving DecidableEq, Repr

instance : Add Vec3 := ⟨fun a b => ⟨a.x + b.x, a.y + b.y, a.z + b.z⟩⟩

instance : Sub Vec3 := ⟨fun a b => ⟨a.x - b.x, a.y - b.y, a.z - b.z⟩⟩

@[simp] lemma Vec3.add_def (a b : Vec3) : a + b = ⟨a.x + b.x, a.y + b.y, a.z + b.z⟩ := rfl

@[simp] lemma Vec3.sub_def (a b : Vec3) : a - b = ⟨a.x - b.x, a.y - b.y, a.z - b.z⟩ := rfl

/-- The zero position. -/
def vzero : Vec3 := ⟨0, 0, 0⟩

/-- A 3x3 rational matrix: the direction-cosine matrix of a scipy rotation. -/
structure Mat3 where
  m11 : ℚ
  m12 : ℚ
  m13 : ℚ
  m21 : ℚ
  m22 : ℚ
  m23 : ℚ
  m31 : ℚ
  m32 : ℚ
  m33 : ℚ
  deriving DecidableEq, Repr

namespace Mat3

/-- `attitude.apply(v)`: multiply the matrix with a column vector. -/
def apply (A : Mat3) (v : Vec3) : Vec3 :=
  ⟨A.m11 * v.x + A.m12 * v.y + A.m13 * v.z,
   A.m21 * v.x + A.m22 * v.y + A.m23 * v.z,
   A.m31 * v.x + A.m32 * v.y + A.m33 * v.z⟩

/-- Matrix transpose: the direction-cosine matrix of the inverse rotation. -/
def transpose (A : Mat3) : Mat3 :=
  ⟨A.m11, A.m21, A.m31, A.m12, A.m22, A.m32, A.m13, A.m23, A.m33⟩

/-- `attitude.inv().apply(v)` and `attitude.apply(v, inverse=True)`. -/
def applyInv (A : Mat3) (v : Vec3) : Vec3 := (transpose A).apply v

/-- Matrix product: composition of two rotations. -/
def mul (A B : Mat3) : Mat3 :=
  ⟨A.m11 * B.m11 + A.m12 * B.m21 + A.m13 * B.m31,
   A.m11 * B.m12 + A.m12 * B.m22 + A.m13 * B.m32,
   A.m11 * B.m13 + A.m12 * B.m23 + A.m13 * B.m33,
   A.m21 * B.m11 + A.m22 * B.m21 + A.m23 * B.m31,
   A.m21 * B.m12 + A.m22 * B.m22 + A.m23 * B.m32,
   A.m21 * B.m13 + A.m22 * B.m23 + A.m23 * B.m33,
   A.m31 * B.m11 + A.m32 * B.m21 + A.m33 * B.m31,
   A.m31 * B.m12 + A.m32 * B.m22 + A.m33 * B.m32,
   A.m31 * B.m13 + A.m32 * B.m23 + A.m33 * B.m33⟩

/-- The identity matrix. -/
def id3 : Mat3 := ⟨1, 0, 0, 0, 1, 0, 0, 0, 1⟩

/-- `A * Aᵀ`; equal to the identity exactly when the rows of `A` are
orthonormal, which holds for every rotation matrix. -/
def mulT (A : Mat3) : Mat3 := mul A (transpose A)

/-- For a matrix with orthonormal rows, applying the rotation after its
inverse restores the vector. -/
lemma apply_applyInv (A : Mat3) (h : A.mulT = id3) (v : Vec3) :
    A.apply (A.applyInv v) = v := by
  have h11 := congrArg Mat3.m11 h
  have h12 := congrArg Mat3.m12 h
  have h13 := congrArg Mat3.m13 h
  have h21 := congrArg Mat3.m21 h
  have h22 := congrArg Mat3.m22 h
  have h23 := congrArg Mat3.m23 h
  have h31 := congrArg Mat3.m31 h
  have h32 := congrArg Mat3.m32 h
  have h33 := congrArg Mat3.m33 h
  simp only [mulT, mul, transpose, id3] at h11 h12 h13 h21 h22 h23 h31 h32 h33
  cases v with
  | mk vx vy vz =>
    simp only [apply, applyInv, transpose, Vec3.mk.injEq]
    refine ⟨?_, ?_, ?_⟩
    · linear_combination vx * h11 + vy * h12 + vz * h13
    · linear_combination vx * h21 + vy * h22 + vz * h23
    · linear_combination vx * h31 + vy * h32 + vz * h33

end Mat3

/-- One point of `np.linspace(a, b, n)` (index `i`); numpy returns `[a]` for
`n = 1` and the affine interpolation with step `(b-a)/(n-1)` otherwise. -/
def linspaceAt (a b : ℚ) (n : ℕ) (i : ℕ) : ℚ :=
  if n ≤ 1 then a else a + (b - a) * i / ((n : ℚ) - 1)

/-- `RadarData.width()` (data.py line 32): `precision * (columns - 1)`. -/
def scanWidthQ (prec : ℚ) (cols : ℕ) : ℚ := prec * ((cols : ℚ) - 1)

/-- `RadarData.height()` (data.py line 28): `precision * (rows - 1)`. -/
def scanHeightQ (prec : ℚ) (rows : ℕ) : ℚ := prec * ((rows : ℚ) - 1)

/-- `RadarData.image_grid` (data.py lines 44-47): position of pixel
(row `i`, column `j`) in the image frame, `np.dstack((x, zeros, y))`, so the
pixel's x-linspace value is the first component, the second component is zero,
and the y-linspace value is the third component. -/
def imageGridPoint (prec : ℚ) (rows cols : ℕ) (i j : ℕ) : Vec3 :=
  ⟨linspaceAt 0 (scanWidthQ prec cols) cols j, 0,
    linspaceAt 0 (scanHeightQ prec rows) rows i⟩

/-- C9 counterexample: for a 2x2 scan at resolution 1, the pixel at row 1,
column 0 has image-frame position (0, 0, 1) — its third component is 1, not 0,
so the grid does not lie in the plane of zero third component. -/
theorem image_grid_cex :
    (imageGridPoint 1 2 2 1 0).z = 1 ∧ ((1 : ℚ) ≠ 0) := by
  constructor
  · norm_num [imageGridPoint, linspaceAt, scanHeightQ]
  · norm_num

/-- C9 amended: each pixel centre of a WxH scan at resolution `r` has its
second component equal to zero, its first component equal to `r * column`
ranging over `[0, (W-1)r]`, and its third component equal to `r * row`
ranging over `[0, (H-1)r]`. -/
theorem image_grid_amended (prec : ℚ) (rows cols i j : ℕ)
    (hp : 0 < prec) (hi : i < rows) (hj : j < cols) :
    (imageGridPoint prec rows cols i j).y = 0 ∧
      (imageGridPoint prec rows cols i j).x = prec * j ∧
      0 ≤ (imageGridPoint prec rows cols i j).x ∧
      (imageGridPoint prec rows cols i j).x ≤ prec * ((cols : ℚ) - 1) ∧
      (imageGridPoint prec rows cols i j).z = prec * i ∧
      0 ≤ (imageGridPoint prec rows cols i j).z ∧
      (imageGridPoint prec rows cols i j).z ≤ prec * ((rows : ℚ) - 1) := by
  have hxval : ∀ (n k : ℕ), k < n → linspaceAt 0 (prec * ((n : ℚ) - 1)) n k = prec * k := by
    intro n k hk
    unfold linspaceAt
    by_cases hn : n ≤ 1
    · have hk0 : k = 0 := by omega
      simp [hk0]
    · have hn2 : (2 : ℕ) ≤ n := by omega
      have hne : ((n : ℚ) - 1) ≠ 0 := by
        have : (2 : ℚ) ≤ (n : ℚ) := by exact_mod_cast hn2
        intro hcontra
        nlinarith
      rw [if_neg hn]
      field_simp
      ring
  have hxle : ∀ (n k : ℕ), k < n → (k : ℚ) ≤ (n : ℚ) - 1 := by
    intro n k hk
    have : (k : ℚ) + 1 ≤ (n : ℚ) := by exact_mod_cast hk
    linarith
  have hx := hxval cols j hj
  have hz := hxval rows i hi
  refine ⟨rfl, ?_, ?_, ?_, ?_, ?_, ?_⟩
  · simpa [imageGridPoint, scanWidthQ] using hx
  · simp only [imageGridPoint, scanWidthQ]
    rw [hx]
    positivity
  · simp only [imageGridPoint, scanWidthQ]
    rw [hx]
    exact mul_le_mul_of_nonneg_left (hxle cols j hj) (le_of_lt hp)
  · simpa [imageGridPoint, scanHeightQ] using hz
  · simp only [imageGridPoint, scanHeightQ]
    rw [hz]
    positivity
  · simp only [imageGridPoint, scanHeightQ]
    rw [hz]
    exact mul_le_mul_of_nonneg_left (hxle rows i hi) (le_of_lt hp)

/-- Witness for `image_grid_amended` on a 2x2 scan at resolution 1, pixel
(1, 0). -/
theorem image_grid_amended_witness :
    (imageGridPoint 1 2 2 1 0).y = 0 ∧
      (imageGridPoint 1 2 2 1 0).x = 1 * (0 : ℕ) ∧
      0 ≤ (imageGridPoint 1 2 2 1 0).x ∧
      (imageGridPoint 1 2 2 1 0).x ≤ 1 * (((2 : ℕ) : ℚ) - 1) ∧
      (imageGridPoint 1 2 2 1 0).z = 1 * (1 : ℕ) ∧
      0 ≤ (imageGridPoint 1 2 2 1 0).z ∧
      (imageGridPoint 1 2 2 1 0).z ≤ 1 * (((2 : ℕ) : ℚ) - 1) :=
  image_grid_amended 1 2 2 1 0 (by norm_num) (by norm_num) (by norm_num)

/-- `RadarData.image_position_from` (data.py lines 104-117).  The transform
estimate is `none` exactly when `image_transformation_from` returned the NaN
sentinel.  The heading-projection primitive `rotation_proj` lives in the
external `utils` module and is passed as an opaque function.  On a valid
estimate: position `other.gps + otherAttᵀ·translation` and attitude
`rotationᵀ · other.attitude`; on the sentinel: position from the two GPS
positions with the third local component zeroed, and attitude
`rotation_proj(other.attitude, self.attitude)ᵀ · other.attitude`. -/
def imagePositionFrom (tr : Option (Vec3 × Mat3)) (selfGps otherGps : Vec3)
    (selfAtt otherAtt : Mat3) (rotProj : Mat3 → Mat3 → Mat3) : Vec3 × Mat3 :=
  match tr with
  | some (t, r) =>
      (otherGps + otherAtt.applyInv t, Mat3.mul (Mat3.transpose r) otherAtt)
  | none =>
      let trans := otherAtt.apply (selfGps - otherGps)
      let trans0 : Vec3 := ⟨trans.x, trans.y, 0⟩
      (otherGps + otherAtt.applyInv trans0,
        Mat3.mul (Mat3.transpose (rotProj otherAtt selfAtt)) otherAtt)

/-- C6: `image_position_from` never returns the invalid sentinel: on an
invalid (NaN) transform it falls back to the GPS-derived position whose local
third (altitude) component relative to `other` is zero, with the attitude
built from the heading-projection primitive; on a valid transform it returns
the content-based pose. -/
theorem fallback_position (selfGps otherGps : Vec3) (selfAtt otherAtt : Mat3)
    (rotProj : Mat3 → Mat3 → Mat3) (horth : otherAtt.mulT = Mat3.id3) :
    (∀ t r, imagePositionFrom (some (t, r)) selfGps otherGps selfAtt otherAtt rotProj
        = (otherGps + otherAtt.applyInv t, Mat3.mul (Mat3.transpose r) otherAtt)) ∧
      imagePositionFrom none selfGps otherGps selfAtt otherAtt rotProj
        = (otherGps + otherAtt.applyInv
              ⟨(otherAtt.apply (selfGps - otherGps)).x,
                (otherAtt.apply (selfGps - otherGps)).y, 0⟩,
            Mat3.mul (Mat3.transpose (rotProj otherAtt selfAtt)) otherAtt) ∧
      (otherAtt.apply
          ((imagePositionFrom none selfGps otherGps selfAtt otherAtt rotProj).1
            - otherGps)).z = 0 := by
  refine ⟨fun t r => rfl, rfl, ?_⟩
  have hcancel :
      (imagePositionFrom none selfGps otherGps selfAtt otherAtt rotProj).1 - otherGps
        = otherAtt.applyInv
            ⟨(otherAtt.apply (selfGps - otherGps)).x,
              (otherAtt.apply (selfGps - otherGps)).y, 0⟩ := by
    simp only [imagePositionFrom]
    ext <;> simp <;> ring
  rw [hcancel, Mat3.apply_applyInv otherAtt horth]

/-- Witness for `fallback_position` with identity attitudes and zero GPS
positions. -/
theorem fallback_position_witness :
    (Mat3.id3.apply
        ((imagePositionFrom none vzero vzero Mat3.id3 Mat3.id3
            (fun _ _ => Mat3.id3)).1 - vzero)).z = 0 :=
  (fallback_position vzero vzero Mat3.id3 Mat3.id3 (fun _ _ => Mat3.id3)
      (by norm_num [Mat3.mulT, Mat3.mul, Mat3.transpose, Mat3.id3])).2.2

/-- Association-list lookup with Python dict key semantics. -/
def alookup {α : Type} : List (String × α) → String → Option α
  | [], _ => none
  | (k, v) :: ts, key => if k = key then some v else alookup ts key

/-- Association-list write, `d[key] = v`: replaces the existing binding or
appends a new one. -/
def aset {α : Type} : List (String × α) → String → α → List (String × α)
  | [], key, v => [(key, v)]
  | (k, w) :: ts, key, v =>
      if k = key then (key, v) :: ts else (k, w) :: aset ts key v

lemma alookup_aset_self {α : Type} (l : List (String × α)) (k : String) (v : α) :
    alookup (aset l k v) k = some v := by
  induction l with
  | nil => simp [aset, alookup]
  | cons hd tl ih =>
    obtain ⟨k2, w⟩ := hd
    by_cases hk : k2 = k
    · simp [aset, hk, alookup]
    · simp [aset, hk, alookup, ih]

/-- The 2x3 affine matrix returned by the external registration primitive
(cv2's ECC estimation in `utils`). -/
structure Warp where
  m00 : ℚ
  m01 : ℚ
  m02 : ℚ
  m10 : ℚ
  m11 : ℚ
  m12 : ℚ
  deriving DecidableEq, Repr

/-- Rotation matrix assembled from a warp matrix (data.py line 81):
`[[w00, w10, 0], [w01, w11, 0], [0, 0, 1]]`. -/
def warpRotation (w : Warp) : Mat3 :=
  ⟨w.m00, w.m10, 0, w.m01, w.m11, 0, 0, 0, 1⟩

/-- Translation extracted from a warp matrix (data.py line 82):
`-precision * [w02, w12, 0]`. -/
def warpTranslation (prec : ℚ) (w : Warp) : Vec3 :=
  ⟨-(prec * w.m02), -(prec * w.m12), -(prec * 0)⟩

/-- State of the persistent `cv2_transformations.db` key-value store: the
reserved `use_dataset` key naming the active namespace, and the per-namespace
tables mapping `"idA-idB"` keys to (translation, rotation) pairs.  (A missing
`use_dataset` key would raise; claims below assume it is set.) -/
structure CacheState where
  useDataset : String
  tables : List (String × List (String × (Vec3 × Mat3)))
  deriving DecidableEq

/-- The cache key `str(self.id) + "-" + str(otherdata.id)`. -/
def cacheKey (a b : String) : String := a ++ "-" ++ b

/-- Cache lookup phase of `image_transformation_from` (data.py lines 57-63):
attempted only when both ids are defined, and only when the active namespace
is itself a key of the store. -/
def cacheLookup (st : CacheState) (selfId otherId : Option String) :
    Option (Vec3 × Mat3) :=
  match selfId, otherId with
  | some a, some b =>
      match alookup st.tables st.useDataset with
      | some tbl => alookup tbl (cacheKey a b)
      | none => none
  | _, _ => none

/-- Cache persist phase (data.py lines 89-97): fetch the namespace table (or
an empty dict), bind the key, and write the table back. -/
def cachePersist (st : CacheState) (key : String) (p : Vec3 × Mat3) : CacheState :=
  { st with
    tables := aset st.tables st.useDataset
      (aset ((alookup st.tables st.useDataset).getD []) key p) }

/-- One call of `RadarData.image_transformation_from` (data.py lines 55-102).
`prim` is the outcome of the external registration primitive: `some w` when it
returns a warp matrix, `none` when it fails (the `except` path, which yields
the NaN sentinel, modelled as `none`).  Returns the (translation, rotation)
result (or the sentinel), the new cache state, and whether the primitive was
invoked. -/
def estimateOnce (st : CacheState) (selfId otherId : Option String) (prec : ℚ)
    (prim : Option Warp) : Option (Vec3 × Mat3) × CacheState × Bool :=
  match cacheLookup st selfId otherId with
  | some p => (some p, st, false)
  | none =>
      match selfId, otherId, prim.map (fun w => (warpTranslation prec w, warpRotation w)) with
      | some a, some b, some p => (some p, cachePersist st (cacheKey a b) p, true)
      | _, _, res => (res, st, true)

lemma cacheLookup_persist (st : CacheState) (a b : String) (p : Vec3 × Mat3) :
    cacheLookup (cachePersist st (cacheKey a b) p) (some a) (some b) = some p := by
  simp [cacheLookup, cachePersist, alookup_aset_self]

/-- C3: with both ids defined, after a first call whose registration succeeds,
a second call (with an arbitrary primitive outcome, including failure) does
not invoke the primitive, returns the same (translation, rotation), and leaves
the cache state unchanged; moreover a failed registration never changes the
persisted state. -/
theorem cache_at_most_once (st : CacheState) (a b : String) (prec prec2 : ℚ)
    (w : Warp) (prim2 : Option Warp) :
    (estimateOnce (estimateOnce st (some a) (some b) prec (some w)).2.1
        (some a) (some b) prec2 prim2).2.2 = false ∧
      (estimateOnce (estimateOnce st (some a) (some b) prec (some w)).2.1
          (some a) (some b) prec2 prim2).1
        = (estimateOnce st (some a) (some b) prec (some w)).1 ∧
      (estimateOnce (estimateOnce st (some a) (some b) prec (some w)).2.1
          (some a) (some b) prec2 prim2).2.1
        = (estimateOnce st (some a) (some b) prec (some w)).2.1 ∧
      (estimateOnce st (some a) (some b) prec none).2.1 = st := by
  have hfail : (estimateOnce st (some a) (some b) prec none).2.1 = st := by
    unfold estimateOnce
    cases hcl : cacheLookup st (some a) (some b) with
    | none => simp
    | some p => simp
  cases hcl : cacheLookup st (some a) (some b) with
  | some p =>
    have h1 : estimateOnce st (some a) (some b) prec (some w) = (some p, st, false) := by
      unfold estimateOnce
      rw [hcl]
    rw [h1]
    have h2 : estimateOnce st (some a) (some b) prec2 prim2 = (some p, st, false) := by
      unfold estimateOnce
      rw [hcl]
    simp [h2, hfail]
  | none =>
    have h1 : estimateOnce st (some a) (some b) prec (some w)
        = (some (warpTranslation prec w, warpRotation w),
           cachePersist st (cacheKey a b) (warpTranslation prec w, warpRotation w),
           true) := by
      unfold estimateOnce
      rw [hcl]
      rfl
    rw [h1]
    have h2 : estimateOnce
        (cachePersist st (cacheKey a b) (warpTranslation prec w, warpRotation w))
        (some a) (some b) prec2 prim2
        = (some (warpTranslation prec w, warpRotation w),
           cachePersist st (cacheKey a b) (warpTranslation prec w, warpRotation w),
           false) := by
      unfold estimateOnce
      rw [cacheLookup_persist]
    simp [h2, hfail]

/-- The persistent tile store: chunk coordinates to (value tile, variance
tile); `none` means the `"{i}/{j}"` key is absent from both hdf5 groups. -/
abbrev Store := ℤ × ℤ → Option (Img × Img)

/-- The all-NaN tile contents of a freshly created chunk. -/
def nanImg : Img := fun _ _ => RVal.nan

/-- Fields of a `Map` instance: `chunk_size`, `precision`, `gps_pos`,
`attitude` and `img_cov` (map.py lines 28-61). -/
structure MapMeta where
  chunkSize : ℕ
  precision : ℚ
  gpsPos : Vec3
  attitude : Mat3
  imgCov : ℚ

/-- Geometry of a `RadarData` scan: image shape, resolution and pose. -/
structure ScanGeom where
  rows : ℕ
  cols : ℕ
  precision : ℚ
  gpsPos : Vec3
  attitude : Mat3

/-- `otherdata.width()`: `precision * (columns - 1)`. -/
def ScanGeom.widthQ (od : ScanGeom) : ℚ := od.precision * ((od.cols : ℚ) - 1)

/-- `otherdata.height()`: `precision * (rows - 1)`. -/
def ScanGeom.heightQ (od : ScanGeom) : ℚ := od.precision * ((od.rows : ℚ) - 1)

/-- Minimum of the four corner coordinates. -/
def min4 (a b c d : ℚ) : ℚ := min (min (min a b) c) d

/-- Maximum of the four corner coordinates. -/
def max4 (a b c d : ℚ) : ℚ := max (max (max a b) c) d

/-- The yaw-plane block matrix of map.py line 73:
`block([[dcm[:2,:2], 0], [0, 1]])`. -/
def yawBlock (A : Mat3) : Mat3 := ⟨A.m11, A.m12, 0, A.m21, A.m22, 0, 0, 0, 1⟩

/-- Axis-aligned bounds (P9, P10) of the rotated scan footprint in the map's
local frame (map.py lines 73-80): corners P5..P8 are P5 plus the yaw-rotated
images of (w,0,0), (w,h,0) and (0,h,0). -/
def footprintBounds (m : MapMeta) (od : ScanGeom) : (ℚ × ℚ) × (ℚ × ℚ) :=
  let q := yawBlock (Mat3.mul (Mat3.transpose m.attitude) od.attitude)
  let p5 := m.attitude.apply (od.gpsPos - m.gpsPos)
  let c6 := q.apply ⟨od.widthQ, 0, 0⟩
  let c7 := q.apply ⟨od.widthQ, od.heightQ, 0⟩
  let c8 := q.apply ⟨0, od.heightQ, 0⟩
  ((min4 p5.x (p5.x + c6.x) (p5.x + c7.x) (p5.x + c8.x),
    min4 p5.y (p5.y + c6.y) (p5.y + c7.y) (p5.y + c8.y)),
   (max4 p5.x (p5.x + c6.x) (p5.x + c7.x) (p5.x + c8.x),
    max4 p5.y (p5.y + c6.y) (p5.y + c7.y) (p5.y + c8.y)))

/-- `np.flip(np.floor((P/precision)/chunk_size))` (map.py lines 82-83): the
first chunk index comes from the y coordinate. -/
def chunkFloor (m : MapMeta) (p : ℚ × ℚ) : ℤ × ℤ :=
  (⌊p.2 / m.precision / (m.chunkSize : ℚ)⌋, ⌊p.1 / m.precision / (m.chunkSize : ℚ)⌋)

/-- Chunk (i,j) lies in the inclusive rectangle [c1, c2]. -/
def inChunkRect (c1 c2 k : ℤ × ℤ) : Prop :=
  c1.1 ≤ k.1 ∧ k.1 ≤ c2.1 ∧ c1.2 ≤ k.2 ∧ k.2 ≤ c2.2

instance (c1 c2 k : ℤ × ℤ) : Decidable (inChunkRect c1 c2 k) := by
  unfold inChunkRect
  exact inferInstance

/-- Contents of a chunk, reading absent chunks as all-NaN. -/
def tileComp (st : Store) (k : ℤ × ℤ) : Img × Img := (st k).getD (nanImg, nanImg)

/-- Lower chunk corner computed by `build_partial_map`. -/
def buildC1 (m : MapMeta) (od : ScanGeom) : ℤ × ℤ :=
  chunkFloor m (footprintBounds m od).1

/-- Upper chunk corner computed by `build_partial_map` (also a floor). -/
def buildC2 (m : MapMeta) (od : ScanGeom) : ℤ × ℤ :=
  chunkFloor m (footprintBounds m od).2

/-- The store after `build_partial_map`'s loop (map.py lines 88-94): every
chunk of the rectangle is created NaN-filled if absent, others untouched. -/
def buildStore (m : MapMeta) (st : Store) (od : ScanGeom) : Store :=
  fun k =>
    if inChunkRect (buildC1 m od) (buildC2 m od) k then some (tileComp st k)
    else st k

/-- Row count of the assembled buffer: `chunk_size * (1 + c2[0] - c1[0])`. -/
def buildRows (m : MapMeta) (od : ScanGeom) : ℕ :=
  m.chunkSize * (1 + (buildC2 m od).1 - (buildC1 m od).1).toNat

/-- Column count of the assembled buffer. -/
def buildCols (m : MapMeta) (od : ScanGeom) : ℕ :=
  m.chunkSize * (1 + (buildC2 m od).2 - (buildC1 m od).2).toNat

/-- Value plane of the assembled buffer: pixel (x,y) is read from the chunk
`(c1.1 + x/cs, c1.2 + y/cs)` at offset `(x % cs, y % cs)`; outside the buffer
shape it stays at its NaN initialisation. -/
def buildBufV (m : MapMeta) (st : Store) (od : ScanGeom) : Img :=
  fun x y =>
    if x < buildRows m od ∧ y < buildCols m od then
      (tileComp (buildStore m st od)
          ((buildC1 m od).1 + (x / m.chunkSize : ℕ),
           (buildC1 m od).2 + (y / m.chunkSize : ℕ))).1
        (x % m.chunkSize) (y % m.chunkSize)
    else RVal.nan

/-- Variance plane of the assembled buffer. -/
def buildBufC (m : MapMeta) (st : Store) (od : ScanGeom) : Img :=
  fun x y =>
    if x < buildRows m od ∧ y < buildCols m od then
      (tileComp (buildStore m st od)
          ((buildC1 m od).1 + (x / m.chunkSize : ℕ),
           (buildC1 m od).2 + (y / m.chunkSize : ℕ))).2
        (x % m.chunkSize) (y % m.chunkSize)
    else RVal.nan

/-- Earth-frame position of the buffer's top-left pixel (map.py line 95). -/
def buildOrigin (m : MapMeta) (od : ScanGeom) : Vec3 :=
  m.gpsPos + m.attitude.applyInv
    ⟨((buildC1 m od).2 : ℚ) * (m.chunkSize : ℚ) * m.precision,
     ((buildC1 m od).1 : ℚ) * (m.chunkSize : ℚ) * m.precision, 0⟩

/-- Result of `Map.build_partial_map` (map.py lines 67-97). -/
structure BuildResult where
  store : Store
  bufV : Img
  bufC : Img
  rows : ℕ
  cols : ℕ
  origin : Vec3
  c1 : ℤ × ℤ
  c2 : ℤ × ℤ
  P9 : ℚ × ℚ
  P10 : ℚ × ℚ

/-- `Map.build_partial_map`, bundling the store after on-demand chunk
creation, the assembled buffers, their shape, the returned origin and the
bound points. -/
def buildPartialMap (m : MapMeta) (st : Store) (od : ScanGeom) : BuildResult :=
  ⟨buildStore m st od, buildBufV m st od, buildBufC m st od,
   buildRows m od, buildCols m od, buildOrigin m od,
   buildC1 m od, buildC2 m od,
   (footprintBounds m od).1, (footprintBounds m od).2⟩

/-- `np.flip(np.round((attitude.apply(pos - gps_pos)[0:2]/precision)/chunk_size))`
(map.py line 105): chunk corner recomputed by `update_map` from the buffer
origin. -/
def updateBase (m : MapMeta) (pos : Vec3) : ℤ × ℤ :=
  ((pyRound ((m.attitude.apply (pos - m.gpsPos)).y / m.precision / (m.chunkSize : ℚ))),
   (pyRound ((m.attitude.apply (pos - m.gpsPos)).x / m.precision / (m.chunkSize : ℚ))))

/-- `int(np.ceil(a / b))` for naturals. -/
def ceilDivNat (a b : ℕ) : ℕ := (a + b - 1) / b

/-- The integers from `a` to `b` inclusive (empty when `b < a`). -/
def intRange (a b : ℤ) : List ℤ :=
  (List.range (b - a + 1).toNat).map (fun n : ℕ => a + (n : ℤ))

/-- The chunk coordinates of the inclusive rectangle [c1, c2], in the
iteration order of the two nested loops. -/
def chunkList (c1 c2 : ℤ × ℤ) : List (ℤ × ℤ) :=
  (intRange c1.1 c2.1).flatMap (fun i => (intRange c1.2 c2.2).map (fun j => (i, j)))

/-- The pair of chunk-size tiles cut out of the buffer for chunk `k`
(map.py lines 108-109). -/
def sliceTilePair (cs : ℕ) (base : ℤ × ℤ) (bufV bufC : Img) (k : ℤ × ℤ) : Img × Img :=
  (fun x y =>
      if x < cs ∧ y < cs then
        bufV ((k.1 - base.1).toNat * cs + x) ((k.2 - base.2).toNat * cs + y)
      else RVal.nan,
   fun x y =>
      if x < cs ∧ y < cs then
        bufC ((k.1 - base.1).toNat * cs + x) ((k.2 - base.2).toNat * cs + y)
      else RVal.nan)

/-- The write loop of `update_map`: writes chunks in order; indexing a chunk
key absent from the tile group raises KeyError, which aborts the call
(modelled as `none`). -/
def updateGo (f : ℤ × ℤ → Img × Img) : List (ℤ × ℤ) → Store → Option Store
  | [], st => some st
  | k :: ks, st =>
      match st k with
      | none => none
      | some _ => updateGo f ks (fun k2 => if k2 = k then some (f k) else st k2)

/-- The chunk rectangle written by `update_map` (map.py lines 105-107). -/
def updateRange (m : MapMeta) (rows cols : ℕ) (pos : Vec3) : List (ℤ × ℤ) :=
  chunkList (updateBase m pos)
    ((updateBase m pos).1 + (ceilDivNat rows m.chunkSize : ℤ) - 1,
     (updateBase m pos).2 + (ceilDivNat cols m.chunkSize : ℤ) - 1)

/-- `Map.update_map` (map.py lines 99-110). -/
def updateMap (m : MapMeta) (st : Store) (rows cols : ℕ) (bufV bufC : Img)
    (pos : Vec3) : Option Store :=
  updateGo (sliceTilePair m.chunkSize (updateBase m pos) bufV bufC)
    (updateRange m rows cols pos) st

/-- The NaN mask of `add_data` (map.py lines 121-123): `diff = mask - ones`;
entries different from 0 become NaN, the rest stay 0. -/
def addDataDiff (warpMask : ℕ → ℕ → ℚ) : Img :=
  fun i j => if warpMask i j - 1 = 0 then RVal.val 0 else RVal.nan

/-- `P_start` of `add_data` (map.py line 127): floors of the footprint's lower
bound relative to the buffer origin, in pixels. -/
def addDataPs (m : MapMeta) (od : ScanGeom) : ℤ × ℤ :=
  (⌊((footprintBounds m od).1.1
      - (m.attitude.apply (buildOrigin m od - m.gpsPos)).x) / m.precision⌋,
   ⌊((footprintBounds m od).1.2
      - (m.attitude.apply (buildOrigin m od - m.gpsPos)).y) / m.precision⌋)

/-- `P_end` of `add_data` (map.py line 128): ceilings of the footprint's upper
bound relative to the buffer origin, in pixels. -/
def addDataPe (m : MapMeta) (od : ScanGeom) : ℤ × ℤ :=
  (⌈((footprintBounds m od).2.1
      - (m.attitude.apply (buildOrigin m od - m.gpsPos)).x) / m.precision⌉,
   ⌈((footprintBounds m od).2.2
      - (m.attitude.apply (buildOrigin m od - m.gpsPos)).y) / m.precision⌉)

/-- `Map.add_data` (map.py lines 112-131): assemble the partial map, resample
the scan (the three `cv2.warpAffine` outputs — scan image, constant
covariance field and all-ones mask — are external primitives passed as
oracles), NaN out uncovered pixels in both resampled buffers, merge over the
footprint rectangle and write the merged buffers back.  No resolution
comparison between the scan and the map appears anywhere in the function. -/
def addData (m : MapMeta) (st : Store) (od : ScanGeom)
    (warpImg warpCov : Img) (warpMask : ℕ → ℕ → ℚ) : Option Store :=
  updateMap m (buildStore m st od) (buildRows m od) (buildCols m od)
    (mergeImg (buildRows m od) (buildCols m od) (buildBufV m st od)
        (fun i j => addDataDiff warpMask i j + warpImg i j) (buildBufC m st od)
        (fun i j => addDataDiff warpMask i j + warpCov i j)
        (addDataPs m od) (addDataPe m od)).1
    (mergeImg (buildRows m od) (buildCols m od) (buildBufV m st od)
        (fun i j => addDataDiff warpMask i j + warpImg i j) (buildBufC m st od)
        (fun i j => addDataDiff warpMask i j + warpCov i j)
        (addDataPs m od) (addDataPe m od)).2
    (buildOrigin m od)

lemma mem_intRange (x a b : ℤ) : x ∈ intRange a b ↔ a ≤ x ∧ x ≤ b := by
  unfold intRange
  constructor
  · intro h
    obtain ⟨n, hn, he⟩ := List.mem_map.mp h
    rw [List.mem_range] at hn
    omega
  · rintro ⟨h1, h2⟩
    apply List.mem_map.mpr
    refine ⟨(x - a).toNat, ?_, ?_⟩
    · rw [List.mem_range]
      omega
    · omega

lemma mem_chunkList (c1 c2 k : ℤ × ℤ) : k ∈ chunkList c1 c2 ↔ inChunkRect c1 c2 k := by
  unfold chunkList inChunkRect
  simp only [List.mem_flatMap, List.mem_map, mem_intRange]
  constructor
  · rintro ⟨i, ⟨hi1, hi2⟩, j, ⟨hj1, hj2⟩, rfl⟩
    exact ⟨hi1, hi2, hj1, hj2⟩
  · rintro ⟨h1, h2, h3, h4⟩
    exact ⟨k.1, ⟨h1, h2⟩, k.2, ⟨h3, h4⟩, Prod.mk.eta⟩

lemma ceilDivNat_mul (cs d : ℕ) (h : 0 < cs) : ceilDivNat (cs * d) cs = d := by
  unfold ceilDivNat
  rw [Nat.add_sub_assoc h, add_comm, Nat.add_mul_div_left _ _ h,
    Nat.div_eq_of_lt (by omega)]
  omega

lemma divdiv_cancel (n : ℤ) (p csq : ℚ) (hp : p ≠ 0) (hcs : csq ≠ 0) :
    ((n : ℚ) * csq * p) / p / csq = (n : ℚ) := by
  rw [mul_div_assoc, div_self hp, mul_one, mul_div_assoc, div_self hcs, mul_one]

lemma min4_le_max4 (a b c d : ℚ) : min4 a b c d ≤ max4 a b c d := by
  unfold min4 max4
  calc min (min (min a b) c) d ≤ min (min a b) c := min_le_left _ _
    _ ≤ min a b := min_le_left _ _
    _ ≤ a := min_le_left _ _
    _ ≤ max a b := le_max_left _ _
    _ ≤ max (max a b) c := le_max_left _ _
    _ ≤ max (max (max a b) c) d := le_max_left _ _

lemma updateGo_none_iff (f : ℤ × ℤ → Img × Img) (l : List (ℤ × ℤ)) (st : Store) :
    updateGo f l st = none ↔ ∃ k, k ∈ l ∧ st k = none := by
  induction l generalizing st with
  | nil => simp [updateGo]
  | cons k ks ih =>
    cases hk : st k with
    | none =>
      simp only [updateGo, hk]
      constructor
      · intro _
        exact ⟨k, List.mem_cons_self k ks, hk⟩
      · intro _
        trivial
    | some t =>
      simp only [updateGo, hk]
      rw [ih]
      constructor
      · rintro ⟨k2, hk2, hnone⟩
        by_cases hkk : k2 = k
        · subst hkk
          simp at hnone
        · refine ⟨k2, List.mem_cons_of_mem _ hk2, ?_⟩
          simpa [hkk] using hnone
      · rintro ⟨k2, hk2, hnone⟩
        rcases List.mem_cons.mp hk2 with h | h
        · subst h
          rw [hk] at hnone
          cases hnone
        · have hkk : k2 ≠ k := by
            intro he
            subst he
            rw [hk] at hnone
            cases hnone
          exact ⟨k2, h, by simp [hkk, hnone]⟩

lemma updateGo_some (f : ℤ × ℤ → Img × Img) (l : List (ℤ × ℤ)) (st : Store)
    (h : ∀ k, k ∈ l → (st k).isSome = true) :
    updateGo f l st = some (fun k2 => if k2 ∈ l then some (f k2) else st k2) := by
  induction l generalizing st with
  | nil => simp [updateGo]
  | cons k ks ih =>
    obtain ⟨t, ht⟩ := Option.isSome_iff_exists.mp (h k (List.mem_cons_self k ks))
    simp only [updateGo, ht]
    have hpres : ∀ k2, k2 ∈ ks →
        (((fun k3 => if k3 = k then some (f k) else st k3)) k2).isSome = true := by
      intro k2 hk2
      by_cases hkk : k2 = k
      · simp [hkk]
      · simpa [hkk] using h k2 (List.mem_cons_of_mem _ hk2)
    rw [ih _ hpres]
    congr 1
    funext k2
    by_cases hks : k2 ∈ ks
    · simp [hks, List.mem_cons]
    · by_cases hkk : k2 = k
      · subst hkk
        simp [hks]
      · simp [hks, hkk, List.mem_cons]

lemma updateGo_domain (f : ℤ × ℤ → Img × Img) (l : List (ℤ × ℤ)) (st st2 : Store)
    (h : updateGo f l st = some st2) (k : ℤ × ℤ) :
    (st2 k).isSome = (st k).isSome := by
  induction l generalizing st with
  | nil =>
    simp only [updateGo, Option.some.injEq] at h
    rw [← h]
  | cons k1 ks ih =>
    cases hk1 : st k1 with
    | none => simp [updateGo, hk1] at h
    | some t =>
      simp only [updateGo, hk1] at h
      rw [ih _ h]
      by_cases hkk : k = k1
      · subst hkk
        simp [hk1]
      · simp [hkk]

lemma vec_add_sub_cancel (a w : Vec3) : a + w - a = w := by
  ext <;> simp

/-- The chunk corner recomputed by `update_map` from the origin returned by
`build_partial_map` is exactly the corner `build_partial_map` assembled from:
the rotation round-trip cancels and the rounded quotient is the exact integer
chunk index. -/
lemma updateBase_buildOrigin (m : MapMeta) (od : ScanGeom)
    (horth : m.attitude.mulT = Mat3.id3) (hp : m.precision ≠ 0)
    (hcs : (m.chunkSize : ℚ) ≠ 0) :
    updateBase m (buildOrigin m od) = buildC1 m od := by
  unfold updateBase buildOrigin
  rw [vec_add_sub_cancel, Mat3.apply_applyInv _ horth]
  have hcomp : ∀ nIdx : ℤ,
      pyRound (((nIdx : ℚ) * (m.chunkSize : ℚ) * m.precision) / m.precision
          / (m.chunkSize : ℚ)) = nIdx := by
    intro nIdx
    rw [divdiv_cancel _ _ _ hp hcs]
    exact pyRound_intCast nIdx
  exact Prod.ext (hcomp _) (hcomp _)

lemma buildC1_le_buildC2 (m : MapMeta) (od : ScanGeom) (hp : 0 < m.precision)
    (hcs : 0 < m.chunkSize) :
    (buildC1 m od).1 ≤ (buildC2 m od).1 ∧ (buildC1 m od).2 ≤ (buildC2 m od).2 := by
  have hb1 : (footprintBounds m od).1.1 ≤ (footprintBounds m od).2.1 := by
    simp only [footprintBounds]
    exact min4_le_max4 _ _ _ _
  have hb2 : (footprintBounds m od).1.2 ≤ (footprintBounds m od).2.2 := by
    simp only [footprintBounds]
    exact min4_le_max4 _ _ _ _
  have hcsq : (0 : ℚ) < (m.chunkSize : ℚ) := by exact_mod_cast hcs
  have hmono : ∀ u v : ℚ, u ≤ v →
      ⌊u / m.precision / (m.chunkSize : ℚ)⌋ ≤ ⌊v / m.precision / (m.chunkSize : ℚ)⌋ := by
    intro u v huv
    apply Int.floor_le_floor
    gcongr
  exact ⟨hmono _ _ hb2, hmono _ _ hb1⟩

/-- Cutting the written tile of chunk `(k1, k2)` back out of the assembled
buffer recovers exactly the tile contents the buffer was assembled from. -/
lemma slice_recovers (m : MapMeta) (st : Store) (od : ScanGeom) (hcs : 0 < m.chunkSize)
    (k1 k2 : ℤ) (hk : inChunkRect (buildC1 m od) (buildC2 m od) (k1, k2))
    (x y : ℕ) (hx : x < m.chunkSize) (hy : y < m.chunkSize) :
    (sliceTilePair m.chunkSize (buildC1 m od) (buildBufV m st od)
          (buildBufC m st od) (k1, k2)).1 x y
        = (tileComp (buildStore m st od) (k1, k2)).1 x y ∧
      (sliceTilePair m.chunkSize (buildC1 m od) (buildBufV m st od)
          (buildBufC m st od) (k1, k2)).2 x y
        = (tileComp (buildStore m st od) (k1, k2)).2 x y := by
  obtain ⟨hk1, hk2, hk3, hk4⟩ := hk
  have hk1' : (buildC1 m od).1 ≤ k1 := hk1
  have hk2' : k1 ≤ (buildC2 m od).1 := hk2
  have hk3' : (buildC1 m od).2 ≤ k2 := hk3
  have hk4' : k2 ≤ (buildC2 m od).2 := hk4
  have hXlt : (k1 - (buildC1 m od).1).toNat * m.chunkSize + x < buildRows m od := by
    have h1 : (k1 - (buildC1 m od).1).toNat + 1
        ≤ (1 + (buildC2 m od).1 - (buildC1 m od).1).toNat := by omega
    calc (k1 - (buildC1 m od).1).toNat * m.chunkSize + x
        < (k1 - (buildC1 m od).1).toNat * m.chunkSize + m.chunkSize := by omega
      _ = ((k1 - (buildC1 m od).1).toNat + 1) * m.chunkSize := by ring
      _ ≤ (1 + (buildC2 m od).1 - (buildC1 m od).1).toNat * m.chunkSize :=
          Nat.mul_le_mul_right _ h1
      _ = buildRows m od := by rw [buildRows]; ring
  have hYlt : (k2 - (buildC1 m od).2).toNat * m.chunkSize + y < buildCols m od := by
    have h1 : (k2 - (buildC1 m od).2).toNat + 1
        ≤ (1 + (buildC2 m od).2 - (buildC1 m od).2).toNat := by omega
    calc (k2 - (buildC1 m od).2).toNat * m.chunkSize + y
        < (k2 - (buildC1 m od).2).toNat * m.chunkSize + m.chunkSize := by omega
      _ = ((k2 - (buildC1 m od).2).toNat + 1) * m.chunkSize := by ring
      _ ≤ (1 + (buildC2 m od).2 - (buildC1 m od).2).toNat * m.chunkSize :=
          Nat.mul_le_mul_right _ h1
      _ = buildCols m od := by rw [buildCols]; ring
  have hdiv : ∀ a w : ℕ, w < m.chunkSize → (a * m.chunkSize + w) / m.chunkSize = a := by
    intro a w hw
    rw [add_comm, mul_comm, Nat.add_mul_div_left _ _ hcs, Nat.div_eq_of_lt hw, zero_add]
  have hmod : ∀ a w : ℕ, w < m.chunkSize → (a * m.chunkSize + w) % m.chunkSize = w := by
    intro a w hw
    rw [add_comm, mul_comm, Nat.add_mul_mod_self_left, Nat.mod_eq_of_lt hw]
  have hidx : ((buildC1 m od).1
        + ((((k1 - (buildC1 m od).1).toNat * m.chunkSize + x) / m.chunkSize : ℕ) : ℤ),
      (buildC1 m od).2
        + ((((k2 - (buildC1 m od).2).toNat * m.chunkSize + y) / m.chunkSize : ℕ) : ℤ))
      = ((k1 : ℤ), (k2 : ℤ)) := by
    rw [hdiv _ _ hx, hdiv _ _ hy, Prod.mk.injEq]
    exact ⟨by omega, by omega⟩
  constructor
  · simp only [sliceTilePair, buildBufV]
    rw [if_pos (And.intro hx hy), if_pos (And.intro hXlt hYlt),
      hmod _ _ hx, hmod _ _ hy, hidx]
  · simp only [sliceTilePair, buildBufC]
    rw [if_pos (And.intro hx hy), if_pos (And.intro hXlt hYlt),
      hmod _ _ hx, hmod _ _ hy, hidx]

/-- C7: writing the buffer returned by `build_partial_map` straight back with
`update_map` (no mutation in between) succeeds, re-derives exactly the chunk
corner the assembly used (round of the origin equals the assembly's floor),
preserves which chunks exist, leaves every tile pixelwise identical to its
state after assembly, and assembly itself never modifies a chunk that already
existed — so every tile that existed before the round trip is byte-identical
to its prior state. -/
theorem assemble_writeback_roundtrip (m : MapMeta) (st : Store) (od : ScanGeom)
    (horth : m.attitude.mulT = Mat3.id3) (hp : 0 < m.precision) (hcs : 0 < m.chunkSize) :
    updateBase m (buildPartialMap m st od).origin = (buildPartialMap m st od).c1 ∧
      ∃ st2,
        updateMap m (buildPartialMap m st od).store (buildPartialMap m st od).rows
            (buildPartialMap m st od).cols (buildPartialMap m st od).bufV
            (buildPartialMap m st od).bufC (buildPartialMap m st od).origin = some st2 ∧
          (∀ k, (st2 k).isSome = ((buildPartialMap m st od).store k).isSome) ∧
          (∀ k x y, x < m.chunkSize → y < m.chunkSize →
              Option.map (fun t => (t.1 x y, t.2 x y)) (st2 k)
                = Option.map (fun t => (t.1 x y, t.2 x y))
                    ((buildPartialMap m st od).store k)) ∧
          (∀ k, (st k).isSome = true → (buildPartialMap m st od).store k = st k) := by
  have hpne : m.precision ≠ 0 := ne_of_gt hp
  have hcsq : (m.chunkSize : ℚ) ≠ 0 := Nat.cast_ne_zero.mpr hcs.ne'
  have hbase := updateBase_buildOrigin m od horth hpne hcsq
  have hle := buildC1_le_buildC2 m od hp hcs
  simp only [buildPartialMap]
  refine ⟨hbase, ?_⟩
  have hr : ceilDivNat (buildRows m od) m.chunkSize
      = (1 + (buildC2 m od).1 - (buildC1 m od).1).toNat := by
    rw [buildRows]
    exact ceilDivNat_mul _ _ hcs
  have hc : ceilDivNat (buildCols m od) m.chunkSize
      = (1 + (buildC2 m od).2 - (buildC1 m od).2).toNat := by
    rw [buildCols]
    exact ceilDivNat_mul _ _ hcs
  have hrange : updateRange m (buildRows m od) (buildCols m od) (buildOrigin m od)
      = chunkList (buildC1 m od) (buildC2 m od) := by
    rw [updateRange, hbase, hr, hc]
    have h2 : ((buildC1 m od).1 + (((1 + (buildC2 m od).1 - (buildC1 m od).1).toNat : ℕ) : ℤ) - 1,
        (buildC1 m od).2 + (((1 + (buildC2 m od).2 - (buildC1 m od).2).toNat : ℕ) : ℤ) - 1)
        = buildC2 m od := by
      have h3 := hle.1
      have h4 := hle.2
      rw [Prod.ext_iff]
      constructor
      · simp only
        omega
      · simp only
        omega
    rw [h2]
  have hpres : ∀ k, k ∈ chunkList (buildC1 m od) (buildC2 m od) →
      ((buildStore m st od) k).isSome = true := by
    intro k hk
    rw [mem_chunkList] at hk
    simp [buildStore, hk]
  refine ⟨fun k2 => if k2 ∈ chunkList (buildC1 m od) (buildC2 m od) then
      some (sliceTilePair m.chunkSize (buildC1 m od) (buildBufV m st od)
        (buildBufC m st od) k2)
    else buildStore m st od k2, ?_, ?_, ?_, ?_⟩
  · rw [updateMap, hrange, hbase]
    exact updateGo_some _ _ _ hpres
  · intro k
    by_cases hk : k ∈ chunkList (buildC1 m od) (buildC2 m od)
    · have hrect := (mem_chunkList _ _ _).mp hk
      simp [hk, buildStore, hrect]
    · simp [hk]
  · intro k x y hx hy
    by_cases hk : k ∈ chunkList (buildC1 m od) (buildC2 m od)
    · have hrect := (mem_chunkList _ _ _).mp hk
      have hbs : buildStore m st od k = some (tileComp st k) := by
        simp [buildStore, hrect]
      have ht : tileComp (buildStore m st od) k = tileComp st k := by
        rw [tileComp, hbs]
        rfl
      obtain ⟨k1, k2⟩ := k
      have hsl := slice_recovers m st od hcs k1 k2 hrect x y hx hy
      rw [ht] at hsl
      simp only [if_pos hk, hbs, Option.map_some']
      rw [hsl.1, hsl.2]
    · simp [hk]
  · intro k hks
    obtain ⟨t, ht⟩ := Option.isSome_iff_exists.mp hks
    by_cases hrect : inChunkRect (buildC1 m od) (buildC2 m od) k
    · simp [buildStore, hrect, tileComp, ht]
    · simp [buildStore, hrect]

/-- A concrete map: chunk size 1000, resolution 1, anchored at the origin
with the identity attitude, default variance 10. -/
def mEx : MapMeta := ⟨1000, 1, vzero, Mat3.id3, 10⟩

/-- A concrete scan whose resolution (2) differs from the map's (1). -/
def odEx : ScanGeom := ⟨2, 2, 2, vzero, Mat3.id3⟩

/-- Value tile of chunk (0,0): pixel (0,0) holds 0, the rest is unknown. -/
def exTileV : Img := fun x y => if x = 0 ∧ y = 0 then RVal.val 0 else RVal.nan

/-- Variance tile of chunk (0,0): pixel (0,0) holds 10, the rest is unknown. -/
def exTileC : Img := fun x y => if x = 0 ∧ y = 0 then RVal.val 10 else RVal.nan

/-- A store holding only chunk (0,0). -/
def stEx : Store := fun k => if k = (0, 0) then some (exTileV, exTileC) else none

/-- The empty store: no chunk has been materialised. -/
def storeEmpty : Store := fun _ => none

/-- Witness for `assemble_writeback_roundtrip` on the concrete map. -/
theorem roundtrip_witness :
    updateBase mEx (buildPartialMap mEx stEx odEx).origin
      = (buildPartialMap mEx stEx odEx).c1 :=
  (assemble_writeback_roundtrip mEx stEx odEx
      (by norm_num [mEx, Mat3.mulT, Mat3.mul, Mat3.transpose, Mat3.id3])
      (by norm_num [mEx]) (by norm_num [mEx])).1

lemma updateBase_zero : updateBase mEx vzero = (0, 0) := by
  have h0 : pyRound (0 : ℚ) = 0 := by simpa using pyRound_intCast 0
  norm_num [updateBase, mEx, vzero, Mat3.apply, Mat3.id3, Vec3.sub_def, h0]

/-- C10: `update_map` never allocates: it fails (KeyError) exactly when some
chunk of its derived range is absent from the store, a successful call leaves
the set of existing chunks unchanged, and `build_partial_map` is the operation
that creates chunks — afterwards a chunk exists iff it existed before or lies
in the assembled rectangle. -/
theorem writeback_no_alloc (m : MapMeta) (st : Store) (rows cols : ℕ)
    (bufV bufC : Img) (pos : Vec3) (od : ScanGeom) :
    (updateMap m st rows cols bufV bufC pos = none ↔
        ∃ k, k ∈ updateRange m rows cols pos ∧ st k = none) ∧
      (∀ st2, updateMap m st rows cols bufV bufC pos = some st2 →
          ∀ k, (st2 k).isSome = (st k).isSome) ∧
      (∀ k, ((buildPartialMap m st od).store k).isSome = true ↔
          ((st k).isSome = true ∨ inChunkRect (buildC1 m od) (buildC2 m od) k)) := by
  refine ⟨updateGo_none_iff _ _ _, ?_, ?_⟩
  · intro st2 h k
    exact updateGo_domain _ _ _ _ h k
  · intro k
    simp only [buildPartialMap]
    unfold buildStore
    by_cases hrect : inChunkRect (buildC1 m od) (buildC2 m od) k
    · simp [hrect]
    · simp [hrect]

/-- Witness for `writeback_no_alloc`: writing back a one-pixel buffer into the
empty store fails, because chunk (0,0) was never materialised. -/
theorem writeback_no_alloc_witness :
    updateMap mEx storeEmpty 1 1 nanImg nanImg vzero = none := by
  apply (writeback_no_alloc mEx storeEmpty 1 1 nanImg nanImg vzero odEx).1.mpr
  refine ⟨(0, 0), ?_, rfl⟩
  rw [updateRange, updateBase_zero, mem_chunkList]
  norm_num [inChunkRect, ceilDivNat, mEx]

lemma footprintBounds_ex : footprintBounds mEx odEx = ((0, 0), (2, 2)) := by
  norm_num [footprintBounds, yawBlock, Mat3.mul, Mat3.transpose, Mat3.id3, Mat3.apply,
    ScanGeom.widthQ, ScanGeom.heightQ, min4, max4, mEx, odEx, vzero, Vec3.sub_def,
    min_def, max_def, Prod.ext_iff]

lemma buildC1_ex : buildC1 mEx odEx = (0, 0) := by
  rw [buildC1, footprintBounds_ex]
  norm_num [chunkFloor, mEx, Prod.ext_iff]

lemma buildC2_ex : buildC2 mEx odEx = (0, 0) := by
  rw [buildC2, footprintBounds_ex]
  have hf : ⌊(2 : ℚ) / 1 / 1000⌋ = 0 := by norm_num [Int.floor_eq_iff]
  norm_num [chunkFloor, mEx, Prod.ext_iff, hf]

lemma buildRows_ex : buildRows mEx odEx = 1000 := by
  rw [buildRows, buildC1_ex, buildC2_ex]
  norm_num [mEx]

lemma buildCols_ex : buildCols mEx odEx = 1000 := by
  rw [buildCols, buildC1_ex, buildC2_ex]
  norm_num [mEx]

lemma buildOrigin_ex : buildOrigin mEx odEx = vzero := by
  rw [buildOrigin, buildC1_ex]
  norm_num [mEx, Mat3.applyInv, Mat3.transpose, Mat3.apply, Mat3.id3, vzero,
    Vec3.add_def, Vec3.ext_iff]

lemma buildStore_ex : buildStore mEx stEx odEx (0, 0) = some (exTileV, exTileC) := by
  simp [buildStore, buildC1_ex, buildC2_ex, inChunkRect, tileComp, stEx]

lemma addDataPs_ex : addDataPs mEx odEx = (0, 0) := by
  rw [addDataPs, footprintBounds_ex, buildOrigin_ex]
  norm_num [mEx, Mat3.apply, Mat3.id3, vzero, Vec3.sub_def, Prod.ext_iff]

lemma addDataPe_ex : addDataPe mEx odEx = (2, 2) := by
  rw [addDataPe, footprintBounds_ex, buildOrigin_ex]
  have hc : ⌈(2 : ℚ) / 1⌉ = 2 := by norm_num
  norm_num [mEx, Mat3.apply, Mat3.id3, vzero, Vec3.sub_def, Prod.ext_iff, hc]

lemma buildBufV_ex : buildBufV mEx stEx odEx 0 0 = RVal.val 0 := by
  simp only [buildBufV, buildRows_ex, buildCols_ex, buildC1_ex, tileComp]
  norm_num
  show ((buildStore mEx stEx odEx ((0 : ℤ), (0 : ℤ))).getD (nanImg, nanImg)).1 0 0
      = RVal.val 0
  rw [buildStore_ex]
  simp [exTileV]

lemma buildBufC_ex : buildBufC mEx stEx odEx 0 0 = RVal.val 10 := by
  simp only [buildBufC, buildRows_ex, buildCols_ex, buildC1_ex, tileComp]
  norm_num
  show ((buildStore mEx stEx odEx ((0 : ℤ), (0 : ℤ))).getD (nanImg, nanImg)).2 0 0
      = RVal.val 10
  rw [buildStore_ex]
  simp [exTileC]

lemma merge_ex :
    (mergeImg 1000 1000 (buildBufV mEx stEx odEx)
        (fun i j => addDataDiff (fun _ _ => 1) i j + RVal.val 100)
        (buildBufC mEx stEx odEx)
        (fun i j => addDataDiff (fun _ _ => 1) i j + RVal.val 10)
        (addDataPs mEx odEx) (addDataPe mEx odEx)).1 0 0 = RVal.val 50 ∧
      (mergeImg 1000 1000 (buildBufV mEx stEx odEx)
        (fun i j => addDataDiff (fun _ _ => 1) i j + RVal.val 100)
        (buildBufC mEx stEx odEx)
        (fun i j => addDataDiff (fun _ _ => 1) i j + RVal.val 10)
        (addDataPs mEx odEx) (addDataPe mEx odEx)).2 0 0 = RVal.val 5 := by
  have hin : inMergeRect (addDataPs mEx odEx) (addDataPe mEx odEx) 1000 1000 0 0 := by
    rw [addDataPs_ex, addDataPe_ex]
    decide
  have himg2 : (fun i j => addDataDiff (fun _ _ => (1 : ℚ)) i j
      + RVal.val 100) 0 0 = RVal.val (100 : ℚ) := by
    norm_num [addDataDiff]
  have hcov2 : (fun i j => addDataDiff (fun _ _ => (1 : ℚ)) i j
      + RVal.val 10) 0 0 = RVal.val (10 : ℚ) := by
    norm_num [addDataDiff]
  have harg : ((0 : ℚ) * 10 + 100 * 10) / (10 + 10) = ((50 : ℤ) : ℚ) := by norm_num
  constructor
  · simp only [mergeImg, if_pos hin, buildBufV_ex, buildBufC_ex, himg2, hcov2,
      mergePixel, RVal.val_mul, RVal.val_add, RVal.val_div, rvalRound_val]
    rw [harg, pyRound_intCast]
    norm_num
  · simp only [mergeImg, if_pos hin, buildBufV_ex, buildBufC_ex, himg2, hcov2,
      mergePixel, RVal.val_mul, RVal.val_add, RVal.val_div]
    norm_num

/-- C5 (supporting theorem for the missing-precondition finding): on a map of
resolution 1, `add_data` applied to a scan of resolution 2 raises no error and
fuses anyway: the call returns an updated store in which pixel (0,0) of chunk
(0,0) changed from (0, 10) to (50, 5).  No resolution check exists in
`add_data`. -/
theorem add_data_no_resolution_check :
    odEx.precision ≠ mEx.precision ∧
      ∃ st2, addData mEx stEx odEx (fun _ _ => RVal.val 100) (fun _ _ => RVal.val 10)
          (fun _ _ => 1) = some st2 ∧
        Option.map (fun t => (t.1 0 0, t.2 0 0)) (st2 (0, 0))
          = some (RVal.val 50, RVal.val 5) ∧
        Option.map (fun t => (t.1 0 0, t.2 0 0)) (stEx (0, 0))
          = some (RVal.val 0, RVal.val 10) := by
  refine ⟨by norm_num [odEx, mEx], ?_⟩
  have hbase2 : updateBase mEx (buildOrigin mEx odEx) = (0, 0) := by
    rw [buildOrigin_ex, updateBase_zero]
  have hrange : updateRange mEx 1000 1000 (buildOrigin mEx odEx) = [((0 : ℤ), (0 : ℤ))] := by
    rw [updateRange, hbase2]
    have hcd : ceilDivNat 1000 mEx.chunkSize = 1 := by norm_num [ceilDivNat, mEx]
    rw [hcd]
    decide
  have hpres : ∀ k, k ∈ [((0 : ℤ), (0 : ℤ))] →
      ((buildStore mEx stEx odEx) k).isSome = true := by
    intro k hk
    simp only [List.mem_singleton] at hk
    subst hk
    rw [buildStore_ex]
    rfl
  rw [addData, buildRows_ex, buildCols_ex, updateMap, hbase2, hrange,
    updateGo_some _ _ _ hpres]
  refine ⟨_, rfl, ?_, ?_⟩
  · have hmem : (((0 : ℤ), (0 : ℤ)) ∈ [((0 : ℤ), (0 : ℤ))]) := List.mem_singleton.mpr rfl
    rw [if_pos hmem, Option.map_some']
    have hcs1000 : mEx.chunkSize = 1000 := rfl
    simp only [sliceTilePair, hcs1000, Prod.mk.injEq]
    norm_num
    exact ⟨merge_ex.1, merge_ex.2⟩
  · simp [stEx, exTileV, exTileC]
